import Mathlib

/-!
Verification development for the `otlp-mock-receiver` log pipeline.

The Go sources are shallowly embedded as pure Lean functions:

* the OTLP protobuf types (`LogRecord`, `KeyValue`, `AnyValue`) become plain
  structures; a protobuf `GetStringValue` on a non-string or absent value
  yields `""` exactly as the generated Go accessors do;
* the regular-expression engine (`regexp` package) is an external library, so
  a compiled regex is abstracted as its matching function `String → Bool`,
  supplied by a `rm : String → String → Bool` parameter mapping a pattern
  source to its matcher;
* Go's `strings.ToLower` is modelled as a character-wise lowercase map and
  `strings.TrimSpace` as a character-list trim, so that both compute inside
  the kernel;
* Go map iteration (rename pairs, rule conditions) has no specified order;
  it is modelled as list traversal, and conjunction over rule conditions is
  order independent;
* mutation of records and counters becomes explicit state passing.
-/

/-- Model of `commonpb.AnyValue`: a typed scalar attribute value. -/
inductive AnyValue where
  | stringValue (s : String)
  | intValue (n : Int)
  | boolValue (b : Bool)
deriving DecidableEq, Repr

/-- Model of `commonpb.KeyValue`: one attribute; the value pointer may be nil. -/
structure KeyValue where
  key : String
  value : Option AnyValue
deriving DecidableEq, Repr

/-- `GetValue().GetStringValue()`: `""` for nil or non-string values. -/
def getStringValue : Option AnyValue → String
  | some (.stringValue s) => s
  | _ => ""

/-- Model of `logspb.LogRecord` restricted to the fields the pipeline reads. -/
structure LogRecord where
  severityNumber : Nat
  body : Option AnyValue
  attributes : List KeyValue
deriving DecidableEq, Repr

/-- OTLP severity ordinal for DEBUG. -/
def SEVERITY_NUMBER_DEBUG : Nat := 5

/-- OTLP severity ordinal for INFO. -/
def SEVERITY_NUMBER_INFO : Nat := 9

/-- OTLP severity ordinal for WARN. -/
def SEVERITY_NUMBER_WARN : Nat := 13

/-- OTLP severity ordinal for ERROR. -/
def SEVERITY_NUMBER_ERROR : Nat := 17

/-- `getAttributeValue` (identical helper in routing.go, allowlist.go and
transform.go): string value of the first attribute with the given key,
`""` when absent. -/
def getAttributeValue (lr : LogRecord) (key : String) : String :=
  match lr.attributes.find? (fun attr => attr.key = key) with
  | some attr => getStringValue attr.value
  | none => ""

/-- Model of Go `strings.ToLower`: character-wise lowercasing. -/
def goToLower (s : String) : String := ⟨s.data.map Char.toLower⟩

/-- Model of Go `strings.TrimSpace`: strip leading and trailing whitespace. -/
def goTrimSpace (s : String) : String :=
  ⟨((s.data.dropWhile Char.isWhitespace).reverse.dropWhile Char.isWhitespace).reverse⟩

/-- Model of Go `strings.HasPrefix(line, "#")`: first character is `#`. -/
def startsWithHash (s : String) : Bool :=
  match s.data with
  | [] => false
  | c :: _ => c = '#'

namespace Routing

/-- `routing.RoutingRule`: configuration-level rule, conditions as
attribute-name/pattern-source pairs (`map[string]string` as a list). -/
structure RoutingRule where
  Name : String
  Conditions : List (String × String)
  Index : String
  Priority : Int
deriving DecidableEq, Repr

/-- `routing.compiledRule`: conditions carry the compiled matcher, or `none`
for the `_severity` special case (the Go code stores a nil `*regexp.Regexp`). -/
structure CompiledRule where
  Name : String
  Conditions : List (String × Option (String → Bool))
  Index : String
  Priority : Int

/-- `routing.Router`. -/
structure Router where
  rules : List CompiledRule
  defaultIndex : String

/-- `routing.matchesSeverity`: threshold test selected by the pattern string. -/
def matchesSeverity (lr : LogRecord) (pattern : String) : Bool :=
  match pattern with
  | "error" => SEVERITY_NUMBER_ERROR ≤ lr.severityNumber
  | "warn" => SEVERITY_NUMBER_WARN ≤ lr.severityNumber
  | "info" => SEVERITY_NUMBER_INFO ≤ lr.severityNumber
  | "debug" => SEVERITY_NUMBER_DEBUG ≤ lr.severityNumber
  | _ => false

/-- One iteration of the `matchesRule` loop body: whether a single compiled
condition accepts the record.  For `_severity` the Go code calls
`matchesSeverity(lr, "error")` for every severity rule. -/
def condHolds (lr : LogRecord) (cond : String × Option (String → Bool)) : Bool :=
  if cond.1 = "_severity" then
    matchesSeverity lr "error"
  else
    let value := getAttributeValue lr cond.1
    if value = "" then false
    else
      match cond.2 with
      | some matcher => matcher value
      | none => false

/-- `routing.matchesRule`: a rule matches when every condition accepts. -/
def matchesRule (lr : LogRecord) (rule : CompiledRule) : Bool :=
  rule.Conditions.all (fun cond => condHolds lr cond)

/-- Priority order used by `NewRouter`'s sort (lower = higher priority). -/
def ruleLE (a b : RoutingRule) : Prop := a.Priority ≤ b.Priority

instance : DecidableRel ruleLE := fun a b => inferInstanceAs (Decidable (a.Priority ≤ b.Priority))

instance : IsTotal RoutingRule ruleLE := ⟨fun a b => Int.le_total a.Priority b.Priority⟩

instance : IsTrans RoutingRule ruleLE := ⟨fun _ _ _ h h' => le_trans h h'⟩

/-- Compilation of one rule inside `NewRouter`: `_severity` conditions store
no matcher, every other pattern is compiled by the regex engine `rm`. -/
def compileRule (rm : String → String → Bool) (rule : RoutingRule) : CompiledRule :=
  { Name := rule.Name
    Conditions := rule.Conditions.map (fun cond =>
      if cond.1 = "_severity" then (cond.1, none) else (cond.1, some (rm cond.2)))
    Index := rule.Index
    Priority := rule.Priority }

/-- `routing.NewRouter`: sort by ascending priority, compile every rule,
fix the default index. -/
def NewRouter (rm : String → String → Bool) (rules : List RoutingRule) : Router :=
  { rules := (List.insertionSort ruleLE rules).map (compileRule rm)
    defaultIndex := "tas_logs" }

/-- The rule-scanning loop of `routing.Route`. -/
def routeGo (defaultIndex : String) (lr : LogRecord) : List CompiledRule → String × String
  | [] => (defaultIndex, "default")
  | rule :: rest =>
    if matchesRule lr rule then (rule.Index, rule.Name) else routeGo defaultIndex lr rest

/-- `routing.Route`: first matching rule wins, otherwise the default index. -/
def Route (r : Router) (lr : LogRecord) : String × String :=
  routeGo r.defaultIndex lr r.rules

end Routing

namespace Transform

/-- `transform.SamplingConfig`. -/
structure SamplingConfig where
  SampleRate : Int
  SampleDebugOnly : Bool
deriving DecidableEq, Repr

/-- Body text of a record (`GetBody().GetStringValue()`). -/
def bodyText (lr : LogRecord) : String := getStringValue lr.body

/-- Modelled from the spec: `transform.ShouldSample`, whose implementation is
missing from the sources (only its tests, callers and acceptance criteria are
present).  Spec rules in precedence order: a nil config or rate ≤ 1 always
keeps; severity at or above ERROR always keeps; in debug-only mode severity
at or above INFO always keeps; otherwise keep iff a stable content-derived
hash of the body text and severity is 0 modulo the rate.  The hash function
is an unspecified implementation detail and is passed as a parameter. -/
def ShouldSample (hash : String → Nat → Nat) (lr : LogRecord)
    (cfg : Option SamplingConfig) : Bool :=
  match cfg with
  | none => true
  | some c =>
    if c.SampleRate ≤ 1 then true
    else if SEVERITY_NUMBER_ERROR ≤ lr.severityNumber then true
    else if c.SampleDebugOnly && decide (SEVERITY_NUMBER_INFO ≤ lr.severityNumber) then true
    else hash (bodyText lr) lr.severityNumber % c.SampleRate.toNat == 0

/-- A compiled PCI pattern abstracted as its two regex-engine entry points:
`MatchString` and `ReplaceAllString` (with the replacement fixed second). -/
structure Pattern where
  matchString : String → Bool
  replaceAll : String → String → String

/-- `transform.Config`: rename map and delete set as lists, body-length limit
(`0` = disabled), compiled PCI patterns. -/
structure Config where
  FieldRenames : List (String × String)
  FieldsToDelete : List String
  MaxBodyLength : Nat
  PCIPatterns : List Pattern

/-- `transform.renameAttribute`: rewrite the key of the first attribute whose
key is `oldKey`, in place; report whether a rename happened. -/
def renameAttribute : List KeyValue → String → String → List KeyValue × Bool
  | [], _, _ => ([], false)
  | attr :: rest, oldKey, newKey =>
    if attr.key = oldKey then ({ attr with key := newKey } :: rest, true)
    else
      let r := renameAttribute rest oldKey newKey
      (attr :: r.1, r.2)

/-- `transform.deleteAttribute`: remove the first attribute with the key by
moving the last element into its slot and truncating. -/
def deleteAttribute (attrs : List KeyValue) (key : String) : List KeyValue × Bool :=
  match attrs.findIdx? (fun attr => attr.key = key) with
  | none => (attrs, false)
  | some i => ((attrs.set i (attrs.getLastD ⟨"", none⟩)).dropLast, true)

/-- `transform.redactPattern`: replace all matches of the pattern in a
non-empty string body; report whether anything matched. -/
def redactPattern (body : Option AnyValue) (p : Pattern) (replacement : String) :
    Option AnyValue × Bool :=
  match body with
  | none => (none, false)
  | some v =>
    let str := getStringValue (some v)
    if str = "" then (some v, false)
    else if p.matchString str then (some (.stringValue (p.replaceAll str replacement)), true)
    else (some v, false)

/-- `transform.truncateBody`: cut an over-long string body to `maxLen`
characters and append the truncation marker. -/
def truncateBody (body : Option AnyValue) (maxLen : Nat) : Option AnyValue × Bool :=
  match body with
  | none => (none, false)
  | some v =>
    let str := getStringValue (some v)
    if str.length ≤ maxLen then (some v, false)
    else (some (.stringValue ((str.take maxLen) ++ "...[TRUNCATED]")), true)

/-- Step 1 of `ApplyWithConfig`: the rename loop, recording one action per
pair that fired.  Go map iteration order is unspecified; the pair list order
stands in for one iteration order. -/
def applyRenames (attrs : List KeyValue) : List (String × String) → List KeyValue × List String
  | [] => (attrs, [])
  | (oldKey, newKey) :: rest =>
    let r := renameAttribute attrs oldKey newKey
    let next := applyRenames r.1 rest
    if r.2 then (next.1, ("Renamed: " ++ oldKey ++ " -> " ++ newKey) :: next.2)
    else (next.1, next.2)

/-- Step 2 of `ApplyWithConfig`: the delete loop. -/
def applyDeletes (attrs : List KeyValue) : List String → List KeyValue × List String
  | [] => (attrs, [])
  | key :: rest =>
    let r := deleteAttribute attrs key
    let next := applyDeletes r.1 rest
    if r.2 then (next.1, ("Deleted: " ++ key) :: next.2)
    else (next.1, next.2)

/-- Step 3 of `ApplyWithConfig`: the PCI redaction loop; the action names the
1-based pattern position as in the Go code. -/
def applyRedactions (body : Option AnyValue) (i : Nat) :
    List Pattern → Option AnyValue × List String
  | [] => (body, [])
  | p :: rest =>
    let r := redactPattern body p "[PCI-REDACTED]"
    let next := applyRedactions r.1 (i + 1) rest
    if r.2 then
      (next.1, ("Redacted PCI pattern #" ++ (Char.ofNat ('1'.toNat + i)).toString) :: next.2)
    else (next.1, next.2)

/-- `transform.ApplyWithConfig`: rename, delete, redact, truncate, then the
sentinel action when nothing fired. -/
def ApplyWithConfig (lr : LogRecord) (cfg : Config) : LogRecord × List String :=
  let renamed := applyRenames lr.attributes cfg.FieldRenames
  let deleted := applyDeletes renamed.1 cfg.FieldsToDelete
  let redacted := applyRedactions lr.body 0 cfg.PCIPatterns
  let truncated :=
    if 0 < cfg.MaxBodyLength then truncateBody redacted.1 cfg.MaxBodyLength
    else (redacted.1, false)
  let actions := renamed.2 ++ deleted.2 ++ redacted.2 ++
    (if truncated.2 then ["Truncated body to max length"] else [])
  ({ lr with attributes := deleted.1, body := truncated.1 },
   if actions.isEmpty then ["No transformations applied"] else actions)

end Transform

namespace AllowlistF

/-- `allowlist.Allowlist`: the stored set of lowercased application names
(the Go `map[string]bool` keyed by lowercase names, as a list). -/
structure Allowlist where
  apps : List String
deriving DecidableEq, Repr

/-- `allowlist.NewAllowlist`: trim each name, skip empties, store lowercase. -/
def NewAllowlist (l : List String) : Allowlist :=
  ⟨l.filterMap (fun app =>
    let trimmed := goTrimSpace app
    if trimmed = "" then none else some (goToLower trimmed))⟩

/-- `allowlist.IsAllowed`: empty set allows all; otherwise look up the
lowercased app name, preferring `cf_app_name` and falling back to
`application_name` when that yields the empty string. -/
def IsAllowed (al : Allowlist) (lr : LogRecord) : Bool :=
  if al.apps.isEmpty then true
  else
    let appName :=
      if getAttributeValue lr "cf_app_name" = "" then
        getAttributeValue lr "application_name"
      else getAttributeValue lr "cf_app_name"
    al.apps.contains (goToLower appName)

/-- The line filter of `allowlist.LoadFromFile`: trim, skip blanks and
`#`-comments. -/
def parseLines (lines : List String) : List String :=
  lines.filterMap (fun raw =>
    let line := goTrimSpace raw
    if line = "" || startsWithHash line then none else some line)

/-- `allowlist.LoadFromFile` over an abstract file-read result: an unreadable
file or scan error is an `error`, otherwise the allowlist built from the
parsed lines. -/
def LoadFromFile (file : Except String (List String)) : Except String Allowlist :=
  match file with
  | .error e => .error e
  | .ok lines => .ok (NewAllowlist (parseLines lines))

/-- `allowlist.reload`: on a load error keep the existing set, otherwise
swap in the new one. -/
def reload (al : Allowlist) (file : Except String (List String)) : Allowlist :=
  match LoadFromFile file with
  | .error _ => al
  | .ok newList => newList

/-- The application-identity selection exactly as claim C5 words it, for
comparison with the code: the value comes from `cf_app_name` whenever an
attribute with that key is present, otherwise from `application_name`. -/
def claimedAppName (lr : LogRecord) : String :=
  if lr.attributes.any (fun a => a.key = "cf_app_name") then
    getAttributeValue lr "cf_app_name"
  else getAttributeValue lr "application_name"

/-- Claim C5's allow predicate built on `claimedAppName`. -/
def claimedIsAllowed (al : Allowlist) (lr : LogRecord) : Bool :=
  if al.apps.isEmpty then true
  else al.apps.contains (goToLower (claimedAppName lr))

/-- The selection `IsAllowed` actually performs: `cf_app_name`'s value when it
is a non-empty string, else `application_name`'s. -/
def effectiveAppName (lr : LogRecord) : String :=
  if getAttributeValue lr "cf_app_name" = "" then
    getAttributeValue lr "application_name"
  else getAttributeValue lr "cf_app_name"

/-- One wakeup of the `WatchFile` select loop. -/
inductive WatchEvent where
  | stopSignal
  | fsEvent (writeOrCreate : Bool) (file : Except String (List String))
  | eventsClosed
  | fsError
  | errorsClosed

/-- One iteration of the `allowlist.WatchFile` loop: the resulting set and
whether the loop keeps running. -/
def watchStep (al : Allowlist) : WatchEvent → Allowlist × Bool
  | .stopSignal => (al, false)
  | .fsEvent writeOrCreate file =>
    if writeOrCreate then (reload al file, true) else (al, true)
  | .eventsClosed => (al, false)
  | .fsError => (al, true)
  | .errorsClosed => (al, false)

end AllowlistF

namespace Receiver

/-- `receiver.Stats`: the four independently incremented counters. -/
structure Stats where
  LogsReceived : Nat
  LogsTransformed : Nat
  LogsDropped : Nat
  LogsFiltered : Nat
deriving DecidableEq, Repr

/-- All-zero counters at process start. -/
def Stats.zero : Stats := ⟨0, 0, 0, 0⟩

/-- Counter effect of `receiver.processLogRecord` on one record: a sampled-out
record increments the dropped counter, a filtered record the filtered counter,
and a record that reaches the transform stage the transformed counter —
exactly one of the three.  The sampling and allowlist decisions are the
record predicates `shouldSample` and `isAllowed` (a nil allowlist is the
constantly-true `isAllowed`). -/
def processLogRecord (shouldSample isAllowed : LogRecord → Bool)
    (st : Stats) (lr : LogRecord) : Stats :=
  if !shouldSample lr then { st with LogsDropped := st.LogsDropped + 1 }
  else if !isAllowed lr then { st with LogsFiltered := st.LogsFiltered + 1 }
  else { st with LogsTransformed := st.LogsTransformed + 1 }

/-- Per-record body of the `Export` loop: increment the received counter,
then hand the record to `processLogRecord`. -/
def exportRecord (shouldSample isAllowed : LogRecord → Bool)
    (st : Stats) (lr : LogRecord) : Stats :=
  processLogRecord shouldSample isAllowed
    { st with LogsReceived := st.LogsReceived + 1 } lr

/-- `Export` over a whole sequence of records handed to the pipeline. -/
def processAll (shouldSample isAllowed : LogRecord → Bool)
    (st : Stats) (recs : List LogRecord) : Stats :=
  recs.foldl (exportRecord shouldSample isAllowed) st

/-- One scope group of an OTLP batch. -/
structure ScopeLogs where
  logRecords : List LogRecord

/-- One resource group of an OTLP batch. -/
structure ResourceLogs where
  scopeLogs : List ScopeLogs

/-- `collogspb.ExportLogsServiceRequest`: the decoded batch structure. -/
structure ExportRequest where
  resourceLogs : List ResourceLogs

/-- The records of a batch in batch order. -/
def batchRecords (req : ExportRequest) : List LogRecord :=
  req.resourceLogs.flatMap (fun r => r.scopeLogs.flatMap (fun s => s.logRecords))

/-- `receiver.httpHandler.handleLogs`: non-POST is 405; an undecodable body is
400 with the counters untouched; otherwise every record of the batch is
counted and processed, and the handler answers 200.  The protobuf decoder is
the abstract `decode`; the third component reports the records handed to the
pipeline. -/
def handleLogs (decode : String → Option ExportRequest)
    (shouldSample isAllowed : LogRecord → Bool) (st : Stats)
    (method body : String) : Nat × Stats × List LogRecord :=
  if method ≠ "POST" then (405, st, [])
  else
    match decode body with
    | none => (400, st, [])
    | some req =>
      (200, processAll shouldSample isAllowed st (batchRecords req), batchRecords req)

end Receiver

namespace Output

/-- `output.LogEntry`: the JSON projection of a processed record. -/
structure LogEntry where
  Timestamp : String
  Severity : String
  SeverityNumber : Int
  Body : String
  Attributes : List (String × String)
  ResourceAttrs : List (String × String)
  RoutingIndex : String
  RoutingRule : String
  Transforms : List String

/-- The state of the writer's open output file: its contents, and whether the
handle is still open.  Writes to a closed handle are lost, as a Go
`(*os.File).Write` after `Close` only returns an error the writer ignores. -/
structure FileState where
  contents : String
  isOpen : Bool

/-- `output.JSONWriter`: the buffer, the active file, the most recent `.1`
rotation product, and the configured thresholds. -/
structure JSONWriter where
  buffer : List LogEntry
  file : FileState
  rotated : Option String
  bufferSize : Nat
  maxFileSize : Nat

/-- Append to the file only while the handle is open. -/
def fileAppend (f : FileState) (s : String) : FileState :=
  if f.isOpen then { f with contents := f.contents ++ s } else f

/-- `output.rotateIfNeeded`: below the threshold do nothing; otherwise move
the current contents to the `.1` file (overwriting it) and start fresh. -/
def rotateIfNeeded (w : JSONWriter) : JSONWriter :=
  if w.file.contents.length < w.maxFileSize then w
  else { w with rotated := some w.file.contents, file := ⟨"", true⟩ }

/-- `output.flushLocked` with the JSON encoder abstracted as `marshal`:
rotate if needed, append each buffered entry as one newline-terminated JSON
document in buffer order, clear the buffer. -/
def flushLocked (marshal : LogEntry → String) (w : JSONWriter) : JSONWriter :=
  if w.buffer.isEmpty then w
  else
    let w' := rotateIfNeeded w
    { w' with
      file := fileAppend w'.file (String.join (w.buffer.map (fun e => marshal e ++ "\n")))
      buffer := [] }

/-- `output.Write`: buffer the entry, flush when the buffer reaches capacity. -/
def write (marshal : LogEntry → String) (w : JSONWriter) (entry : LogEntry) : JSONWriter :=
  let w' := { w with buffer := w.buffer ++ [entry] }
  if w.bufferSize ≤ w'.buffer.length then flushLocked marshal w' else w'

/-- `output.Close`: stop the flush loop, flush a non-empty buffer, then close
the file handle. -/
def close (marshal : LogEntry → String) (w : JSONWriter) : JSONWriter :=
  let w' := if w.buffer.isEmpty then w else flushLocked marshal w
  { w' with file := { w'.file with isOpen := false } }

end Output

/-! ## Routing theorems -/

/-- The `Route` loop returns the first rule of the list accepted by
`matchesRule`, or the default when none is. -/
theorem routeGo_eq_find (d : String) (lr : LogRecord) (l : List Routing.CompiledRule) :
    Routing.routeGo d lr l =
      match l.find? (fun rule => Routing.matchesRule lr rule) with
      | some rule => (rule.Index, rule.Name)
      | none => (d, "default") := by
  induction l with
  | nil => rfl
  | cons rule rest ih =>
    by_cases h : Routing.matchesRule lr rule
    · simp [Routing.routeGo, h, List.find?]
    · simp only [Bool.not_eq_true] at h
      simp [Routing.routeGo, h, List.find?, ih]

/-- C2: `Route` returns the index and name of the first rule, in the router's
ascending-priority rule order, all of whose conditions are satisfied (the
compiled rule list is sorted by priority and is a permutation of the compiled
input rules); when no rule matches it returns the fixed default index
`tas_logs` with rule name `default`. -/
theorem route_first_match_default (rm : String → String → Bool)
    (rules : List Routing.RoutingRule) (lr : LogRecord) :
    List.Pairwise (fun a b : Routing.CompiledRule => a.Priority ≤ b.Priority)
      (Routing.NewRouter rm rules).rules ∧
    List.Perm (Routing.NewRouter rm rules).rules (rules.map (Routing.compileRule rm)) ∧
    (Routing.NewRouter rm rules).defaultIndex = "tas_logs" ∧
    (match (Routing.NewRouter rm rules).rules.find?
        (fun rule => Routing.matchesRule lr rule) with
     | some rule => Routing.Route (Routing.NewRouter rm rules) lr = (rule.Index, rule.Name)
     | none => Routing.Route (Routing.NewRouter rm rules) lr = ("tas_logs", "default")) := by
  refine ⟨?_, ?_, rfl, ?_⟩
  · have hs := List.sorted_insertionSort Routing.ruleLE rules
    simp only [Routing.NewRouter]
    rw [List.pairwise_map]
    exact hs.imp (fun h => h)
  · exact (List.perm_insertionSort Routing.ruleLE rules).map (Routing.compileRule rm)
  · have h := routeGo_eq_find "tas_logs" lr (Routing.NewRouter rm rules).rules
    cases hf : (Routing.NewRouter rm rules).rules.find?
        (fun rule => Routing.matchesRule lr rule) with
    | none => simpa [Routing.Route, hf] using h
    | some rule => simpa [Routing.Route, hf] using h

/-- C1 counterexample: a routing rule configured with a WARN severity
threshold does not match a record whose severity is exactly at the WARN tier;
the record falls through to the default, because `matchesRule` always tests
for ERROR-and-above regardless of the configured tier. -/
theorem severity_condition_counterexample :
    Routing.Route
        (Routing.NewRouter (fun _ _ => true)
          [⟨"warn-rule", [("_severity", "warn")], "idx_w", 1⟩])
        ⟨SEVERITY_NUMBER_WARN, none, []⟩ = ("tas_logs", "default") ∧
    Routing.condHolds ⟨SEVERITY_NUMBER_WARN, none, []⟩ ("_severity", none) = false ∧
    SEVERITY_NUMBER_WARN ≤ SEVERITY_NUMBER_WARN := by
  decide

/-- C1 amended: every severity-threshold condition of a compiled routing rule
is satisfied exactly when the record's severity is at or above the ERROR
tier, whatever threshold tier the rule was configured with. -/
theorem severity_condition_error_tier (rm : String → String → Bool)
    (rules : List Routing.RoutingRule) (lr : LogRecord)
    (rule : Routing.CompiledRule) (cond : String × Option (String → Bool))
    (_hrule : rule ∈ (Routing.NewRouter rm rules).rules)
    (_hcond : cond ∈ rule.Conditions) (hsev : cond.1 = "_severity") :
    (Routing.condHolds lr cond = true ↔ SEVERITY_NUMBER_ERROR ≤ lr.severityNumber) := by
  simp [Routing.condHolds, hsev, Routing.matchesSeverity]

/-- Concrete instantiation of `severity_condition_error_tier`: the compiled
form of a WARN-threshold rule, its severity condition, and a record at the
ERROR ordinal. -/
theorem severity_condition_error_tier_witness :
    (Routing.compileRule (fun _ _ => true) ⟨"w", [("_severity", "warn")], "i", 1⟩)
        ∈ (Routing.NewRouter (fun _ _ => true) [⟨"w", [("_severity", "warn")], "i", 1⟩]).rules ∧
    ("_severity", (none : Option (String → Bool)))
        ∈ (Routing.compileRule (fun _ _ => true) ⟨"w", [("_severity", "warn")], "i", 1⟩).Conditions ∧
    (Routing.condHolds ⟨SEVERITY_NUMBER_ERROR, none, []⟩ ("_severity", none) = true
      ↔ SEVERITY_NUMBER_ERROR ≤ LogRecord.severityNumber ⟨SEVERITY_NUMBER_ERROR, none, []⟩) :=
  ⟨List.Mem.head _, List.Mem.head _,
   severity_condition_error_tier (fun _ _ => true)
     [⟨"w", [("_severity", "warn")], "i", 1⟩] ⟨SEVERITY_NUMBER_ERROR, none, []⟩
     _ _ (List.Mem.head _) (List.Mem.head _) rfl⟩




/-! ## Sampling theorems -/

/-- C3: for every sampling configuration with rate at least 1, whatever the
debug-only flag and the hash function, a record at ERROR severity or above is
always kept by `ShouldSample`. -/
theorem shouldSample_error_always_kept (hash : String → Nat → Nat)
    (rate : Int) (debugOnly : Bool) (lr : LogRecord)
    (_hrate : 1 ≤ rate) (hsev : SEVERITY_NUMBER_ERROR ≤ lr.severityNumber) :
    Transform.ShouldSample hash lr (some ⟨rate, debugOnly⟩) = true := by
  by_cases hle : rate ≤ 1
  · simp [Transform.ShouldSample, hle]
  · simp [Transform.ShouldSample, hle, hsev]

/-- Concrete instantiation of `shouldSample_error_always_kept`: an extreme
rate of 1000, a hash that is never 0 modulo anything, and an ERROR record. -/
theorem shouldSample_error_always_kept_witness :
    1 ≤ (1000 : Int) ∧
    SEVERITY_NUMBER_ERROR ≤ LogRecord.severityNumber ⟨SEVERITY_NUMBER_ERROR, none, []⟩ ∧
    Transform.ShouldSample (fun _ _ => 1) ⟨SEVERITY_NUMBER_ERROR, none, []⟩
      (some ⟨1000, false⟩) = true :=
  ⟨by decide, by decide,
   shouldSample_error_always_kept (fun _ _ => 1) 1000 false
     ⟨SEVERITY_NUMBER_ERROR, none, []⟩ (by decide) (by decide)⟩

/-! ## Receiver counter theorems -/

/-- One exported record increments the received counter by exactly one and
exactly one of the transformed, dropped and filtered counters by one. -/
theorem exportRecord_counters (shouldSample isAllowed : LogRecord → Bool)
    (st : Receiver.Stats) (lr : LogRecord) :
    (Receiver.exportRecord shouldSample isAllowed st lr).LogsReceived
        = st.LogsReceived + 1 ∧
    (Receiver.exportRecord shouldSample isAllowed st lr).LogsTransformed
        + (Receiver.exportRecord shouldSample isAllowed st lr).LogsDropped
        + (Receiver.exportRecord shouldSample isAllowed st lr).LogsFiltered
      = st.LogsTransformed + st.LogsDropped + st.LogsFiltered + 1 := by
  unfold Receiver.exportRecord Receiver.processLogRecord
  cases hss : shouldSample lr <;> cases hia : isAllowed lr <;> simp <;> omega

/-- Counter bookkeeping of a whole record sequence from an arbitrary start
state. -/
theorem processAll_counters (shouldSample isAllowed : LogRecord → Bool)
    (recs : List LogRecord) (st : Receiver.Stats) :
    (Receiver.processAll shouldSample isAllowed st recs).LogsReceived
        = st.LogsReceived + recs.length ∧
    (Receiver.processAll shouldSample isAllowed st recs).LogsTransformed
        + (Receiver.processAll shouldSample isAllowed st recs).LogsDropped
        + (Receiver.processAll shouldSample isAllowed st recs).LogsFiltered
      = st.LogsTransformed + st.LogsDropped + st.LogsFiltered + recs.length := by
  induction recs generalizing st with
  | nil => simp [Receiver.processAll]
  | cons lr rest ih =>
    have hstep := exportRecord_counters shouldSample isAllowed st lr
    have hrest := ih (Receiver.exportRecord shouldSample isAllowed st lr)
    simp only [Receiver.processAll, List.foldl_cons, List.length_cons] at *
    omega

/-- C4: after any sequence of records handed to the pipeline, the received
counter equals the number of records, the transformed, dropped-by-sampling
and dropped-by-filter counters sum to it (each record increments received
exactly once and then exactly one of the three), and in particular
received ≥ transformed + dropped-by-sampling. -/
theorem received_ge_transformed_plus_dropped
    (shouldSample isAllowed : LogRecord → Bool) (recs : List LogRecord) :
    (Receiver.processAll shouldSample isAllowed Receiver.Stats.zero recs).LogsReceived
        = recs.length ∧
    (Receiver.processAll shouldSample isAllowed Receiver.Stats.zero recs).LogsTransformed
        + (Receiver.processAll shouldSample isAllowed Receiver.Stats.zero recs).LogsDropped
        + (Receiver.processAll shouldSample isAllowed Receiver.Stats.zero recs).LogsFiltered
      = (Receiver.processAll shouldSample isAllowed Receiver.Stats.zero recs).LogsReceived ∧
    (Receiver.processAll shouldSample isAllowed Receiver.Stats.zero recs).LogsTransformed
        + (Receiver.processAll shouldSample isAllowed Receiver.Stats.zero recs).LogsDropped
      ≤ (Receiver.processAll shouldSample isAllowed Receiver.Stats.zero recs).LogsReceived := by
  have h := processAll_counters shouldSample isAllowed recs Receiver.Stats.zero
  simp only [Receiver.Stats.zero] at h ⊢
  omega

/-! ## Allowlist theorems -/

/-- When every attribute with the given key carries no string value, the
attribute lookup yields the empty string. -/
theorem getAttributeValue_eq_empty (lr : LogRecord) (k : String)
    (h : ∀ a ∈ lr.attributes, a.key = k → getStringValue a.value = "") :
    getAttributeValue lr k = "" := by
  unfold getAttributeValue
  cases hf : lr.attributes.find? (fun attr => attr.key = k) with
  | none => rfl
  | some attr =>
    have hmem := List.mem_of_find?_eq_some hf
    have hkey := List.find?_some hf
    simp only [decide_eq_true_eq] at hkey
    exact h attr hmem hkey

/-- Lowercasing a non-empty string never yields the empty string. -/
theorem goToLower_ne_empty (s : String) (h : s ≠ "") : goToLower s ≠ "" := by
  intro hc
  apply h
  have hd : s.data.map Char.toLower = [] := congrArg String.data hc
  exact String.ext (List.map_eq_nil_iff.mp hd)

/-- The empty string is never a stored allowlist identifier. -/
theorem empty_not_mem_newAllowlist (l : List String) :
    "" ∉ (AllowlistF.NewAllowlist l).apps := by
  intro hmem
  simp only [AllowlistF.NewAllowlist, List.mem_filterMap] at hmem
  obtain ⟨a, _, hfa⟩ := hmem
  by_cases ht : goTrimSpace a = ""
  · simp [ht] at hfa
  · simp only [ht, if_neg, ite_false, Option.some.injEq] at hfa
    exact goToLower_ne_empty _ ht hfa

/-- Membership in the stored set, characterised over the constructor input:
exactly the lowercased trims of the non-blank entries are stored. -/
theorem mem_newAllowlist_iff (l : List String) (x : String) :
    (AllowlistF.NewAllowlist l).apps.contains x = true ↔
      ∃ a ∈ l, goTrimSpace a ≠ "" ∧ goToLower (goTrimSpace a) = x := by
  rw [List.elem_iff]
  simp only [AllowlistF.NewAllowlist, List.mem_filterMap]
  constructor
  · rintro ⟨a, ha, hfa⟩
    by_cases ht : goTrimSpace a = ""
    · simp [ht] at hfa
    · simp only [ht, ite_false, Option.some.injEq] at hfa
      exact ⟨a, ha, ht, hfa⟩
  · rintro ⟨a, ha, ht, hx⟩
    exact ⟨a, ha, by simp [ht, hx]⟩

/-- The stored set is empty exactly when every constructor entry is blank. -/
theorem newAllowlist_isEmpty_iff (l : List String) :
    (AllowlistF.NewAllowlist l).apps.isEmpty = true ↔ ∀ a ∈ l, goTrimSpace a = "" := by
  rw [List.isEmpty_iff]
  simp only [AllowlistF.NewAllowlist, List.filterMap_eq_nil_iff]
  refine forall_congr' (fun a => forall_congr' (fun _ => ?_))
  by_cases ht : goTrimSpace a = "" <;> simp [ht]

/-- C5 counterexample: with the allowlist `["Allowed"]`, a record whose
`cf_app_name` attribute is present with the empty-string value and whose
`application_name` is `"allowed"` is allowed by the code (the fallback key is
consulted), while the claim's present-key selection rejects it. -/
theorem isAllowed_claimed_selection_counterexample :
    AllowlistF.IsAllowed (AllowlistF.NewAllowlist ["Allowed"])
      ⟨SEVERITY_NUMBER_INFO, none,
        [⟨"cf_app_name", some (.stringValue "")⟩,
         ⟨"application_name", some (.stringValue "allowed")⟩]⟩ = true ∧
    AllowlistF.claimedIsAllowed (AllowlistF.NewAllowlist ["Allowed"])
      ⟨SEVERITY_NUMBER_INFO, none,
        [⟨"cf_app_name", some (.stringValue "")⟩,
         ⟨"application_name", some (.stringValue "allowed")⟩]⟩ = false := by
  decide

/-- C5 amended: `IsAllowed` on a constructed allowlist returns true exactly
when either every entry given to the constructor is blank (empty allowlist:
allow all), or some non-blank entry's case-normalised trim equals the
case-normalised application identity — the identity taken from `cf_app_name`
when its value is a non-empty string and from `application_name` otherwise. -/
theorem isAllowed_iff_membership (l : List String) (lr : LogRecord) :
    AllowlistF.IsAllowed (AllowlistF.NewAllowlist l) lr = true ↔
      ((∀ a ∈ l, goTrimSpace a = "") ∨
        ∃ a ∈ l, goTrimSpace a ≠ "" ∧
          goToLower (goTrimSpace a) = goToLower (AllowlistF.effectiveAppName lr)) := by
  by_cases hemp : (AllowlistF.NewAllowlist l).apps.isEmpty
  · simp only [AllowlistF.IsAllowed, hemp, ite_true, true_iff]
    exact Or.inl ((newAllowlist_isEmpty_iff l).mp hemp)
  · have hnotall : ¬ ∀ a ∈ l, goTrimSpace a = "" :=
      fun hc => hemp ((newAllowlist_isEmpty_iff l).mpr hc)
    have hemp' : (AllowlistF.NewAllowlist l).apps.isEmpty = false := by
      rwa [Bool.not_eq_true] at hemp
    unfold AllowlistF.IsAllowed
    rw [hemp', if_neg (by decide)]
    show (AllowlistF.NewAllowlist l).apps.contains
        (goToLower (AllowlistF.effectiveAppName lr)) = true ↔ _
    rw [mem_newAllowlist_iff]
    constructor
    · exact fun h => Or.inr h
    · rintro (hall | h)
      · exact absurd hall hnotall
      · exact h

/-- C6: a hot-reload attempt whose load of the backing file fails leaves the
in-memory allowlist set exactly as it was, and the watcher loop keeps
running. -/
theorem reload_failure_keeps_set (al : AllowlistF.Allowlist) (msg : String) :
    AllowlistF.watchStep al (.fsEvent true (.error msg)) = (al, true) := rfl

/-- C10: whenever every `cf_app_name` and `application_name` attribute of a
record carries no (non-empty string) value, a non-empty allowlist rejects the
record. -/
theorem no_app_identity_rejected (l : List String) (lr : LogRecord)
    (hnoid : ∀ a ∈ lr.attributes,
      a.key = "cf_app_name" ∨ a.key = "application_name" → getStringValue a.value = "")
    (hne : (AllowlistF.NewAllowlist l).apps ≠ []) :
    AllowlistF.IsAllowed (AllowlistF.NewAllowlist l) lr = false := by
  have h1 : getAttributeValue lr "cf_app_name" = "" :=
    getAttributeValue_eq_empty lr _ (fun a ha hk => hnoid a ha (Or.inl hk))
  have h2 : getAttributeValue lr "application_name" = "" :=
    getAttributeValue_eq_empty lr _ (fun a ha hk => hnoid a ha (Or.inr hk))
  have hemp : (AllowlistF.NewAllowlist l).apps.isEmpty = false := by
    rw [Bool.eq_false_iff]
    intro hc
    exact hne (List.isEmpty_iff.mp hc)
  unfold AllowlistF.IsAllowed
  rw [hemp, if_neg (by decide)]
  show (AllowlistF.NewAllowlist l).apps.contains
      (goToLower (AllowlistF.effectiveAppName lr)) = false
  have happ : AllowlistF.effectiveAppName lr = "" := by
    unfold AllowlistF.effectiveAppName
    rw [h1, if_pos rfl]
    exact h2
  rw [happ, show goToLower "" = "" from rfl, Bool.eq_false_iff]
  intro hc
  exact empty_not_mem_newAllowlist l (List.elem_iff.mp hc)

/-- Concrete instantiation of `no_app_identity_rejected`: a record whose only
identity attribute is a non-string `cf_app_name`, against allowlist `["x"]`. -/
theorem no_app_identity_rejected_witness :
    (∀ a ∈ LogRecord.attributes
        ⟨SEVERITY_NUMBER_INFO, none, [⟨"cf_app_name", some (.intValue 5)⟩]⟩,
      a.key = "cf_app_name" ∨ a.key = "application_name" → getStringValue a.value = "") ∧
    (AllowlistF.NewAllowlist ["x"]).apps ≠ [] ∧
    AllowlistF.IsAllowed (AllowlistF.NewAllowlist ["x"])
      ⟨SEVERITY_NUMBER_INFO, none, [⟨"cf_app_name", some (.intValue 5)⟩]⟩ = false :=
  ⟨by decide, by decide,
   no_app_identity_rejected ["x"]
     ⟨SEVERITY_NUMBER_INFO, none, [⟨"cf_app_name", some (.intValue 5)⟩]⟩
     (by decide) (by decide)⟩

/-! ## Transformation theorems -/

/-- Renaming a key that no attribute carries returns the attribute list
unchanged and reports no rename. -/
theorem renameAttribute_of_absent (attrs : List KeyValue) (oldKey newKey : String)
    (h : ∀ a ∈ attrs, a.key ≠ oldKey) :
    Transform.renameAttribute attrs oldKey newKey = (attrs, false) := by
  induction attrs with
  | nil => rfl
  | cons a rest ih =>
    have hk : ¬ a.key = oldKey := h a (List.mem_cons_self a rest)
    simp only [Transform.renameAttribute, if_neg hk,
      ih (fun b hb => h b (List.mem_cons_of_mem a hb))]

/-- A rename whose new key differs from `x` cannot introduce an attribute
with key `x`. -/
theorem renameAttribute_preserves_absent (attrs : List KeyValue) (o n x : String)
    (hne : n ≠ x) (h : ∀ a ∈ attrs, a.key ≠ x) :
    ∀ b ∈ (Transform.renameAttribute attrs o n).1, b.key ≠ x := by
  induction attrs with
  | nil => simp [Transform.renameAttribute]
  | cons a rest ih =>
    intro b hb
    by_cases hk : a.key = o
    · simp only [Transform.renameAttribute, if_pos hk] at hb
      rcases List.mem_cons.mp hb with hb1 | hb2
      · rw [hb1]
        exact hne
      · exact h b (List.mem_cons_of_mem a hb2)
    · simp only [Transform.renameAttribute, if_neg hk] at hb
      rcases List.mem_cons.mp hb with hb1 | hb2
      · rw [hb1]
        exact h a (List.mem_cons_self a rest)
      · exact ih (fun c hc => h c (List.mem_cons_of_mem a hc)) b hb2

/-- Dropping a rename pair whose old key no attribute carries — provided no
other pair's new key is that old key — does not change the rename stage. -/
theorem applyRenames_skip (o n : String) (ps₂ : List (String × String)) :
    ∀ (ps₁ : List (String × String)) (attrs : List KeyValue),
      (∀ a ∈ attrs, a.key ≠ o) → (∀ p ∈ ps₁, p.2 ≠ o) →
      Transform.applyRenames attrs (ps₁ ++ (o, n) :: ps₂)
        = Transform.applyRenames attrs (ps₁ ++ ps₂) := by
  intro ps₁
  induction ps₁ with
  | nil =>
    intro attrs habs _
    simp only [List.nil_append, Transform.applyRenames,
      renameAttribute_of_absent attrs o n habs]
    simp
  | cons p ps₁ ih =>
    intro attrs habs hps
    obtain ⟨po, pn⟩ := p
    have hpn : pn ≠ o := hps (po, pn) (List.mem_cons_self _ _)
    have habs' : ∀ b ∈ (Transform.renameAttribute attrs po pn).1, b.key ≠ o :=
      renameAttribute_preserves_absent attrs po pn o hpn habs
    have hps' : ∀ q ∈ ps₁, q.2 ≠ o := fun q hq => hps q (List.mem_cons_of_mem _ hq)
    simp only [List.cons_append, Transform.applyRenames, List.append_eq]
    rw [ih (Transform.renameAttribute attrs po pn).1 habs' hps']

/-- C7 counterexample: with rename pairs `a → b` then `b → c` and a record
carrying only key `a`, the pair `b → c` fires even though the record has no
attribute `b`: an attribute with the pair's new key `c` appears and a rename
action for the pair is recorded. -/
theorem rename_missing_key_counterexample :
    (LogRecord.attributes
        ⟨SEVERITY_NUMBER_INFO, none, [⟨"a", some (.stringValue "v")⟩]⟩).all
      (fun a => a.key ≠ "b") = true ∧
    (Transform.ApplyWithConfig
        ⟨SEVERITY_NUMBER_INFO, none, [⟨"a", some (.stringValue "v")⟩]⟩
        ⟨[("a", "b"), ("b", "c")], [], 0, []⟩).1.attributes
      = [⟨"c", some (.stringValue "v")⟩] ∧
    (Transform.ApplyWithConfig
        ⟨SEVERITY_NUMBER_INFO, none, [⟨"a", some (.stringValue "v")⟩]⟩
        ⟨[("a", "b"), ("b", "c")], [], 0, []⟩).2
      = ["Renamed: a -> b", "Renamed: b -> c"] := by
  refine ⟨by decide, ?_, ?_⟩ <;> decide

/-- C7 amended: a configured rename pair whose old key no attribute of the
record carries has no effect on the pipeline — provided no other configured
pair renames onto that old key — in the strong sense that running
`ApplyWithConfig` with the pair is identical (same record, same actions) to
running it with the pair removed. -/
theorem rename_missing_key_noop (lr : LogRecord) (cfg : Transform.Config)
    (oldKey newKey : String) (ps₁ ps₂ : List (String × String))
    (hsplit : cfg.FieldRenames = ps₁ ++ (oldKey, newKey) :: ps₂)
    (habsent : ∀ a ∈ lr.attributes, a.key ≠ oldKey)
    (hdisjoint : ∀ p ∈ cfg.FieldRenames, p.2 ≠ oldKey) :
    Transform.ApplyWithConfig lr cfg
      = Transform.ApplyWithConfig lr { cfg with FieldRenames := ps₁ ++ ps₂ } := by
  have hps : ∀ p ∈ ps₁, p.2 ≠ oldKey := fun p hp =>
    hdisjoint p (by rw [hsplit]; exact List.mem_append_left _ hp)
  unfold Transform.ApplyWithConfig
  rw [hsplit, applyRenames_skip oldKey newKey ps₂ ps₁ lr.attributes habsent hps]

/-- Concrete instantiation of `rename_missing_key_noop`: the single pair
`a → b` against a record carrying only key `z`. -/
theorem rename_missing_key_noop_witness :
    Transform.Config.FieldRenames ⟨[("a", "b")], [], 0, []⟩ = [] ++ ("a", "b") :: [] ∧
    (∀ a ∈ LogRecord.attributes
        ⟨SEVERITY_NUMBER_INFO, none, [⟨"z", some (.stringValue "v")⟩]⟩, a.key ≠ "a") ∧
    (∀ p ∈ Transform.Config.FieldRenames ⟨[("a", "b")], [], 0, []⟩, p.2 ≠ "a") ∧
    Transform.ApplyWithConfig
        ⟨SEVERITY_NUMBER_INFO, none, [⟨"z", some (.stringValue "v")⟩]⟩
        ⟨[("a", "b")], [], 0, []⟩
      = Transform.ApplyWithConfig
          ⟨SEVERITY_NUMBER_INFO, none, [⟨"z", some (.stringValue "v")⟩]⟩
          { (⟨[("a", "b")], [], 0, []⟩ : Transform.Config) with FieldRenames := [] ++ [] } :=
  ⟨rfl, by decide, by decide,
   rename_missing_key_noop
     ⟨SEVERITY_NUMBER_INFO, none, [⟨"z", some (.stringValue "v")⟩]⟩
     ⟨[("a", "b")], [], 0, []⟩ "a" "b" [] [] rfl (by decide) (by decide)⟩

/-! ## HTTP boundary theorem -/

/-- C8: a POSTed batch whose body the protobuf decoder rejects is answered
with HTTP 400, the counters are left exactly as they were (in particular the
received counter is not incremented), and no record is handed to the
pipeline. -/
theorem malformed_batch_rejected (decode : String → Option Receiver.ExportRequest)
    (shouldSample isAllowed : LogRecord → Bool) (st : Receiver.Stats) (body : String)
    (hdec : decode body = none) :
    Receiver.handleLogs decode shouldSample isAllowed st "POST" body = (400, st, []) := by
  simp [Receiver.handleLogs, hdec]

/-- Concrete instantiation of `malformed_batch_rejected`: a decoder that
rejects everything, nonzero counters, an arbitrary body. -/
theorem malformed_batch_rejected_witness :
    (fun _ : String => (none : Option Receiver.ExportRequest)) "garbage" = none ∧
    Receiver.handleLogs (fun _ => none) (fun _ => true) (fun _ => true)
      ⟨5, 3, 1, 1⟩ "POST" "garbage" = (400, ⟨5, 3, 1, 1⟩, []) :=
  ⟨rfl,
   malformed_batch_rejected (fun _ => none) (fun _ => true) (fun _ => true)
     ⟨5, 3, 1, 1⟩ "garbage" rfl⟩

/-! ## Output-writer theorem -/

/-- C9: closing a writer whose file handle is open leaves an empty buffer and
a released handle, and every buffered entry was first flushed — appended to
the active file as one newline-terminated JSON document per entry, in buffer
order, after the prior contents (or after a rotation that moved the prior
contents aside) — before the handle was released; no buffered entry is
discarded.  Appends to a closed handle are lost in this model, so the
contents equation also certifies the flush-before-release ordering. -/
theorem close_flushes_before_release (marshal : Output.LogEntry → String)
    (w : Output.JSONWriter) (hopen : w.file.isOpen = true) :
    (Output.close marshal w).buffer = [] ∧
    (Output.close marshal w).file.isOpen = false ∧
    ((Output.close marshal w).file.contents
        = w.file.contents ++ String.join (w.buffer.map (fun e => marshal e ++ "\n"))
      ∨ ((Output.close marshal w).file.contents
            = String.join (w.buffer.map (fun e => marshal e ++ "\n"))
          ∧ (Output.close marshal w).rotated = some w.file.contents)) := by
  by_cases hbuf : w.buffer.isEmpty
  · have hb : w.buffer = [] := List.isEmpty_iff.mp hbuf
    refine ⟨?_, ?_, Or.inl ?_⟩ <;>
      simp [Output.close, hbuf, hb, String.join, String.append_empty]
  · by_cases hrot : w.file.contents.length < w.maxFileSize
    · refine ⟨?_, ?_, Or.inl ?_⟩ <;>
        simp [Output.close, Output.flushLocked, Output.rotateIfNeeded, Output.fileAppend,
          hbuf, hrot, hopen]
    · refine ⟨?_, ?_, Or.inr ⟨?_, ?_⟩⟩ <;>
        simp [Output.close, Output.flushLocked, Output.rotateIfNeeded, Output.fileAppend,
          hbuf, hrot, hopen]

/-- Concrete instantiation of `close_flushes_before_release`: one buffered
entry, an open file with prior contents, no rotation pending. -/
theorem close_flushes_before_release_witness :
    (Output.JSONWriter.file
        ⟨[⟨"t", "INFO", 9, "msg", [], [], "tas_logs", "default", []⟩],
          ⟨"prior", true⟩, none, 10, 100⟩).isOpen = true ∧
    ((Output.close (fun _ => "{}")
        ⟨[⟨"t", "INFO", 9, "msg", [], [], "tas_logs", "default", []⟩],
          ⟨"prior", true⟩, none, 10, 100⟩).buffer = [] ∧
      (Output.close (fun _ => "{}")
        ⟨[⟨"t", "INFO", 9, "msg", [], [], "tas_logs", "default", []⟩],
          ⟨"prior", true⟩, none, 10, 100⟩).file.isOpen = false ∧
      ((Output.close (fun _ => "{}")
          ⟨[⟨"t", "INFO", 9, "msg", [], [], "tas_logs", "default", []⟩],
            ⟨"prior", true⟩, none, 10, 100⟩).file.contents
          = "prior" ++ String.join
              ([⟨"t", "INFO", 9, "msg", [], [], "tas_logs", "default", []⟩].map
                (fun e => (fun _ : Output.LogEntry => "{}") e ++ "\n"))
        ∨ ((Output.close (fun _ => "{}")
              ⟨[⟨"t", "INFO", 9, "msg", [], [], "tas_logs", "default", []⟩],
                ⟨"prior", true⟩, none, 10, 100⟩).file.contents
              = String.join
                  ([⟨"t", "INFO", 9, "msg", [], [], "tas_logs", "default", []⟩].map
                    (fun e => (fun _ : Output.LogEntry => "{}") e ++ "\n"))
            ∧ (Output.close (fun _ => "{}")
                ⟨[⟨"t", "INFO", 9, "msg", [], [], "tas_logs", "default", []⟩],
                  ⟨"prior", true⟩, none, 10, 100⟩).rotated = some "prior"))) :=
  ⟨rfl,
   close_flushes_before_release (fun _ => "{}")
     ⟨[⟨"t", "INFO", 9, "msg", [], [], "tas_logs", "default", []⟩],
       ⟨"prior", true⟩, none, 10, 100⟩ rfl⟩
